import Mathlib

/-!
Verification of the NanoLog (FastLogger) log-decompressor driver,
`src/runtime/LogDecompressor.cc`, against its natural-language
specification.

The driver's collaborators (`BufferUtils.h`, the generated
`BufferStuffer.h` dispatch array, and the PerfUtils `Cycles` clock
calibration) are not part of the repository sources available here;
where a definition embeds one of them it is modelled from the
specification and its doc comment says so explicitly.  Everything else
is translated directly from `LogDecompressor.cc`.

Modelling conventions: bytes are `Nat` values (< 256 in every stream an
encoder produces), the input file is a `List Nat`, C++ unsigned
wraparound is explicit `% 2 ^ 32` / `% 2 ^ 64`, and the decode loop is
driven by explicit fuel because the C++ loop is not structurally
terminating.
-/

namespace NanoLog

/-- Entry-type tag as observed by the driver: `LogMessage`, `Checkpoint`,
`Invalid` (sentinel: no valid tag here, likely padding), and any other
raw tag value, which the driver's final `else` branch reports and exits
on (lines 108-112 of `LogDecompressor.cc`). -/
inductive EntryType where
  | logMsg
  | checkpoint
  | invalid
  | other (tag : Nat)
deriving DecidableEq, Repr

/-- Modelled from the spec: `BufferUtils::peekEntryType` lives in
`BufferUtils.h`, which is not among the sources.  Per the spec the
stream is `[entry-type tag][payload]` per record and `Invalid` is the
sentinel for "no valid tag here, likely padding"; the driver's corrupt
branch shows further raw tag values exist.  We model the tag as the
high two bits of the record's lead byte (`Invalid` = 0, `LogMessage` =
1, `Checkpoint` = 2, anything else unrecognized), and peeking at an
exhausted source yields `Invalid`.  Zero padding bytes therefore peek
as `Invalid`, and -- as the spec's latent-bug note requires -- so do
non-zero garbage bytes whose high bits are zero. -/
def peekEntryType (s : List Nat) : EntryType :=
  match s with
  | [] => .invalid
  | b :: _ =>
    if b / 64 = 1 then .logMsg
    else if b / 64 = 2 then .checkpoint
    else if b / 64 = 0 then .invalid
    else .other (b / 64)

/-- Little-endian base-256 value of a byte list (each entry reduced mod
256), the byte-order choice documented for the variable-length integer
codec. -/
def leNat : List Nat → Nat
  | [] => 0
  | b :: bs => b % 256 + 256 * leNat bs

/-- Little-endian byte string of a natural number, structurally recursive
on a step bound that the value itself always satisfies. -/
def toLEAux : Nat → Nat → List Nat
  | 0, _ => []
  | k + 1, u => if u = 0 then [] else u % 256 :: toLEAux k (u / 256)

/-- Little-endian byte string of a natural number (no terminating zero
bytes). -/
def toLE (u : Nat) : List Nat :=
  toLEAux u u

/-- Fixed-width little-endian byte string (used for the checkpoint's
8-byte calibration field). -/
def toLEFix : Nat → Nat → List Nat
  | 0, _ => []
  | k + 1, u => u % 256 :: toLEFix k (u / 256)

/-- Modelled from the spec: the Variable-Length Integer Codec (not among
the sources) decodes "an initial width indicator followed by that many
bytes in a consistent byte order".  We document the implementer-chosen
layout: a width byte `w` followed by `w` little-endian bytes; decoding
fails (`MalformedVarintError`) if fewer than `w` bytes remain. -/
def readVarint (s : List Nat) : Option (Nat × List Nat) :=
  match s with
  | [] => none
  | w :: rest =>
    if rest.length < w then none
    else some (leNat (rest.take w), rest.drop w)

/-- Encoder counterpart of `readVarint`: width byte followed by the
little-endian bytes of the value. -/
def encodeVarint (u : Nat) : List Nat :=
  (toLE u).length :: toLE u

/-- Zigzag decoding of an unsigned magnitude into a signed delta, the
documented signed-value convention of the variable-length codec. -/
def zigzagDecode (u : Nat) : Int :=
  if u % 2 = 0 then ((u / 2 : Nat) : Int) else -(((u + 1) / 2 : Nat) : Int)

/-- Zigzag encoding of a signed delta. -/
def zigzagEncode (x : Int) : Nat :=
  if 0 ≤ x then 2 * x.toNat else 2 * (-x).toNat - 1

/-- Modelled from the spec: `BufferUtils::decompressMetadata` (§4.3, not
among the sources).  Consumes the entry-type lead byte, then the
delta-encoded format id and the delta-encoded timestamp, each a
variable-length signed integer added to the caller's running state;
the sums wrap like the C++ `uint32_t` format id and `uint64_t`
timestamp.  It does not itself advance the caller's running state. -/
def decompressMetadata (s : List Nat) (lastFmtId lastTimestamp : Nat) :
    Option (Nat × Nat × List Nat) :=
  match s with
  | [] => none
  | _ :: rest =>
    match readVarint rest with
    | none => none
    | some (u1, r1) =>
      match readVarint r1 with
      | none => none
      | some (u2, r2) =>
        some ((((lastFmtId : Int) + zigzagDecode u1) % (2 ^ 32 : Int)).toNat,
              (((lastTimestamp : Int) + zigzagDecode u2) % (2 ^ 64 : Int)).toNat,
              r2)

/-- Modelled from the spec: `BufferUtils::readCheckpoint` (§4.4, not
among the sources) reads a fixed-shape record: the lead tag byte and
the 8-byte calibration value `cyclesPerSecond` (kept as its raw 64-bit
little-endian content, since only its identity matters to the driver). -/
def readCheckpoint (s : List Nat) : Option (Nat × List Nat) :=
  match s with
  | [] => none
  | _ :: rest =>
    if rest.length < 8 then none
    else some (leNat (rest.take 8), rest.drop 8)

/-- One unit of observable output of the driver.  A decoded log line is
a `header` (the `printf` on line 92: running message index, cycle-count
delta, and the calibration used to render it as nanoseconds) followed by
a `body` (the argument bytes consumed and printed by the dispatch-table
entry on line 95).  `checkpointLine` is line 103, `corruptLine` the
report on lines 109-110, and `summary` the final count on lines
115-116. -/
inductive Event where
  | header (idx : Nat) (deltaCycles : Nat) (calibUsed : Nat)
  | body (args : List Nat)
  | checkpointLine (cyclesPerSecond : Nat)
  | corruptLine (tag : Nat)
  | summary (count : Nat)
deriving DecidableEq, Repr

/-- Driver state for the decode loop of `main` (lines 79-113): the
remaining input bytes, the C++ stream's eof bit, and the variables
`linesPrinted`, `lastFmtId`, `lastTimestamp`, plus the output emitted
so far. -/
structure DecSt where
  stream : List Nat
  eofb : Bool
  linesPrinted : Nat
  lastFmtId : Nat
  lastTimestamp : Nat
  out : List Event
deriving DecidableEq, Repr

/-- How an iteration of the decode loop ends: continue looping, or halt
with a final outcome. -/
inductive Outcome where
  | completed
  | corrupt (tag : Nat)
  | ub
  | truncated
deriving DecidableEq, Repr

/-- Result of one loop iteration. -/
inductive StepResult where
  | next (st : DecSt)
  | halt (r : Outcome) (st : DecSt)
deriving DecidableEq, Repr

/-- One iteration of the `while (!in.eof())` loop of
`LogDecompressor.cc` lines 82-113, translated branch by branch.
`fnArray` embeds the generated `decompressAndPrintFnArray` of
`BufferStuffer.h` (not among the sources); modelled from the spec's
dispatch-table contract, each entry consumes exactly the argument
bytes of its call site -- represented by the per-entry byte count --
and prints one line.  An out-of-range index on line 95 is the C++
undefined behavior, `Outcome.ub`.  `cyclesPerSec` is the machine
calibration used by `PerfUtils::Cycles::toSeconds` on line 92; per the
line-91 TODO comment the checkpoint's own value is not used.
A decoder needing more bytes than remain is the spec's fatal
`TruncatedRecordError`, `Outcome.truncated` (the driver shown has no
code for it; its decoders are not among the sources). -/
def decodeStep (fnArray : List Nat) (cyclesPerSec : Nat) (msgsToPrint : Nat)
    (st : DecSt) : StepResult :=
  if st.eofb then .halt .completed st
  else if 0 < msgsToPrint ∧ msgsToPrint ≤ st.linesPrinted then .halt .completed st
  else
    match peekEntryType st.stream with
    | .logMsg =>
      match decompressMetadata st.stream st.lastFmtId st.lastTimestamp with
      | none => .halt .truncated { st with eofb := st.eofb || st.stream.isEmpty }
      | some (fmtId, ts, rest) =>
        match fnArray[fmtId]? with
        | none => .halt .ub { st with
            eofb := st.eofb || st.stream.isEmpty,
            out := st.out ++ [.header st.linesPrinted
              ((((ts : Int) - (st.lastTimestamp : Int)) % (2 ^ 64 : Int)).toNat)
              cyclesPerSec] }
        | some argLen =>
          if rest.length < argLen then .halt .truncated { st with
            eofb := st.eofb || st.stream.isEmpty,
            out := st.out ++ [.header st.linesPrinted
              ((((ts : Int) - (st.lastTimestamp : Int)) % (2 ^ 64 : Int)).toNat)
              cyclesPerSec] }
          else .next { st with
            stream := rest.drop argLen,
            eofb := st.eofb || st.stream.isEmpty,
            linesPrinted := st.linesPrinted + 1,
            lastFmtId := fmtId,
            lastTimestamp := ts,
            out := st.out ++ [.header st.linesPrinted
              ((((ts : Int) - (st.lastTimestamp : Int)) % (2 ^ 64 : Int)).toNat)
              cyclesPerSec,
              .body (rest.take argLen)] }
    | .checkpoint =>
      match readCheckpoint st.stream with
      | none => .halt .truncated { st with eofb := st.eofb || st.stream.isEmpty }
      | some (cps, rest) =>
        .next { st with
          stream := rest,
          eofb := st.eofb || st.stream.isEmpty,
          out := st.out ++ [.checkpointLine cps] }
    | .invalid =>
      .next { st with
        stream := st.stream.dropWhile (· = 0),
        eofb := (st.eofb || st.stream.isEmpty) || (st.stream.dropWhile (· = 0)).isEmpty }
    | .other tag =>
      .halt (.corrupt tag) { st with
        eofb := st.eofb || st.stream.isEmpty,
        out := st.out ++ [.corruptLine tag] }

/-- The decode loop, iterating `decodeStep` under explicit fuel; `none`
means the fuel ran out before the loop ended (in particular an
infinite loop never yields a result for any fuel). -/
def decodeLoop (fnArray : List Nat) (cyclesPerSec : Nat) (msgsToPrint : Nat) :
    Nat → DecSt → Option (Outcome × DecSt)
  | 0, _ => none
  | fuel + 1, st =>
    match decodeStep fnArray cyclesPerSec msgsToPrint st with
    | .halt r st1 => some (r, st1)
    | .next st1 => decodeLoop fnArray cyclesPerSec msgsToPrint fuel st1

/-- Initial loop state: lines 79-81 of `LogDecompressor.cc` set
`linesPrinted = 0`, `lastFmtId = 0`, `lastTimestamp = 0`. -/
def initSt (stream : List Nat) : DecSt :=
  { stream := stream, eofb := false, linesPrinted := 0,
    lastFmtId := 0, lastTimestamp := 0, out := [] }

/-- Errors thrown by `std::stoi` as used on line 53. -/
inductive StoiError where
  | invalidArgument
  | outOfRange
deriving DecidableEq, Repr

/-- Drops one optional leading sign character, as `std::stoi` does. -/
def stripSign : List Char → List Char
  | '-' :: r => r
  | '+' :: r => r
  | r => r

/-- Whether the (whitespace-stripped) argument starts with a minus
sign. -/
def hasNeg : List Char → Bool
  | '-' :: _ => true
  | _ => false

/-- Decimal value of a digit string. -/
def digitsToNat (ds : List Char) : Nat :=
  ds.foldl (fun a c => 10 * a + (c.toNat - 48)) 0

/-- Embedding of `std::stoi(argv[2])` (line 53): skip leading
whitespace, accept one optional sign, read the longest digit run;
no digits is `std::invalid_argument`, a value outside `int`'s range is
`std::out_of_range`, and any trailing non-digit text is ignored. -/
def stoiModel (arg : String) : Except StoiError Int :=
  let cs := arg.data.dropWhile Char.isWhitespace
  let ds := (stripSign cs).takeWhile Char.isDigit
  if ds = [] then .error .invalidArgument
  else
    let mag : Int := (digitsToNat ds : Int)
    let v : Int := if hasNeg cs then -mag else mag
    if v < -2147483648 ∨ 2147483647 < v then .error .outOfRange
    else .ok v

/-- Observable result of a whole program run: the argument passed to
`exit` / returned from `main`, together with the decoded output
emitted, or undefined behavior (the unchecked dispatch-array index),
or fuel exhaustion of the model. -/
inductive ProgResult where
  | exited (code : Int) (out : List Event)
  | undefBehavior (out : List Event)
  | outOfFuel
deriving DecidableEq, Repr

/-- What happens after the decode loop ends: a normal loop exit reaches
the summary `printf` of lines 115-116 and `return 0`; the corrupt-tag
branch calls `exit(-1)` on line 111 without reaching the summary;
undefined behavior stays undefined; a truncated-record failure is the
spec's fatal error with non-zero status (modelled from the spec -- the
driver itself has no such path since its decoders are not among the
sources). -/
def finishRun : Option (Outcome × DecSt) → ProgResult
  | none => .outOfFuel
  | some (.completed, st) => .exited 0 (st.out ++ [.summary st.linesPrinted])
  | some (.corrupt _, st) => .exited (-1) st.out
  | some (.ub, st) => .undefBehavior st.out
  | some (.truncated, st) => .exited (-1) st.out

/-- Embedding of `main` (lines 33-119): usage check (`exit(1)`), count
parsing via `stoiModel` (`exit(-1)` on either `std::stoi` exception or
a negative value), file-open check (`exit(-1)`), then the decode loop
from the zeroed initial state.  `fileOpens` abstracts whether
`std::ifstream` opens `argv[1]`; the scratch-buffer `calloc` is assumed
to succeed. -/
def mainModel (fnArray : List Nat) (cyclesPerSec : Nat) (argv : List String)
    (fileOpens : Bool) (stream : List Nat) (fuel : Nat) : ProgResult :=
  if argv.length < 2 then .exited 1 []
  else
    let parsed : Except StoiError Int :=
      if 2 < argv.length then stoiModel (argv.getD 2 ("")) else .ok 0
    match parsed with
    | .error _ => .exited (-1) []
    | .ok v =>
      if v < 0 then .exited (-1) []
      else if fileOpens then
        finishRun (decodeLoop fnArray cyclesPerSec v.toNat fuel (initSt stream))
      else .exited (-1) []

/-- A log-message record in absolute (pre-delta-encoding) form. -/
structure LogRecord where
  fmtId : Nat
  ts : Nat
  args : List Nat
deriving DecidableEq, Repr

/-- Byte encoding of one log-message record relative to the previous
record's absolute format id and timestamp: the `LogMessage` lead byte,
the two zigzag varint deltas, then the argument bytes. -/
def encodeMsg (pf pt : Nat) (r : LogRecord) : List Nat :=
  64 :: (encodeVarint (zigzagEncode ((r.fmtId : Int) - (pf : Int))) ++
    encodeVarint (zigzagEncode ((r.ts : Int) - (pt : Int))) ++ r.args)

/-- Byte encoding of a chain of log-message records starting from the
given running state. -/
def encodeMsgs (pf pt : Nat) : List LogRecord → List Nat
  | [] => []
  | r :: rs => encodeMsg pf pt r ++ encodeMsgs r.fmtId r.ts rs

/-- Byte encoding of a checkpoint record: the `Checkpoint` lead byte and
the 8-byte calibration value. -/
def encodeCheckpoint (cps : Nat) : List Nat :=
  128 :: toLEFix 8 cps

/-- A record is well formed for a dispatch table when its format id and
timestamp fit their C++ integer types and the table has an entry whose
argument-byte count matches the record's arguments. -/
def WFRec (fnArray : List Nat) (r : LogRecord) : Prop :=
  r.fmtId < 2 ^ 32 ∧ r.ts < 2 ^ 64 ∧ fnArray[r.fmtId]? = some r.args.length

instance (fnArray : List Nat) (r : LogRecord) : Decidable (WFRec fnArray r) := by
  unfold WFRec; infer_instance

/-- All records of a stream are well formed. -/
def WFRecs (fnArray : List Nat) (rs : List LogRecord) : Prop :=
  ∀ r ∈ rs, WFRec fnArray r

instance (fnArray : List Nat) (rs : List LogRecord) : Decidable (WFRecs fnArray rs) := by
  unfold WFRecs; infer_instance

/-- The running message indices carried by the header events of an
output trace, in emission order. -/
def headerIndices (out : List Event) : List Nat :=
  out.filterMap fun e =>
    match e with
    | .header i _ _ => some i
    | _ => none

/-- Number of decoded log lines in an output trace. -/
def headerCount (out : List Event) : Nat :=
  (headerIndices out).length

/-- The header events of an output trace (index, cycle delta and the
calibration used to display it). -/
def headerEvents (out : List Event) : List Event :=
  out.filter fun e =>
    match e with
    | .header _ _ _ => true
    | _ => false

/-- The calibration values of the checkpoint lines in an output trace. -/
def checkpointValues (out : List Event) : List Nat :=
  out.filterMap fun e =>
    match e with
    | .checkpointLine c => some c
    | _ => none

/-- The counts reported by summary lines in an output trace. -/
def summaryReports (out : List Event) : List Nat :=
  out.filterMap fun e =>
    match e with
    | .summary n => some n
    | _ => none

/-- The events of a program result. -/
def eventsOf : ProgResult → List Event
  | .exited _ out => out
  | .undefBehavior out => out
  | .outOfFuel => []

/-! ## Round-trip facts about the spec-modelled codec -/

theorem leNat_toLEAux (k u : Nat) (hu : u ≤ k) : leNat (toLEAux k u) = u := by
  induction k generalizing u with
  | zero =>
    have : u = 0 := by omega
    simp [toLEAux, this, leNat]
  | succ k ih =>
    rw [toLEAux]
    split
    · rename_i h
      simp [leNat, h]
    · rename_i h
      have hlt : u / 256 ≤ k := by
        have := Nat.div_lt_self (Nat.pos_of_ne_zero h) (by norm_num : 1 < 256)
        omega
      simp only [leNat, ih (u / 256) hlt]
      omega

theorem leNat_toLE (u : Nat) : leNat (toLE u) = u :=
  leNat_toLEAux u u le_rfl

theorem readVarint_encodeVarint (u : Nat) (t : List Nat) :
    readVarint (encodeVarint u ++ t) = some (u, t) := by
  simp [encodeVarint, readVarint, List.take_left, List.drop_left, leNat_toLE]

theorem zigzagDecode_encodeVal (x : Int) : zigzagDecode (zigzagEncode x) = x := by
  unfold zigzagDecode zigzagEncode
  by_cases h : 0 ≤ x
  · have hx : (x.toNat : Int) = x := Int.toNat_of_nonneg h
    simp only [if_pos h, Nat.mul_mod_right, if_pos rfl]
    rw [Nat.mul_div_cancel_left _ (by norm_num : 0 < 2)]
    exact hx
  · have hx : 0 < -x := by omega
    have hm : 1 ≤ (-x).toNat := by omega
    have hmod : (2 * (-x).toNat - 1) % 2 = 1 := by omega
    have hdiv : (2 * (-x).toNat - 1 + 1) / 2 = (-x).toNat := by omega
    simp only [if_neg h, hmod, hdiv]
    norm_num
    omega

theorem decompressMetadata_encodeMsg (pf pt : Nat) (r : LogRecord) (t : List Nat)
    (h1 : r.fmtId < 2 ^ 32) (h2 : r.ts < 2 ^ 64) :
    decompressMetadata (encodeMsg pf pt r ++ t) pf pt =
      some (r.fmtId, r.ts, r.args ++ t) := by
  unfold encodeMsg
  simp only [List.cons_append, List.append_assoc]
  simp only [decompressMetadata, readVarint_encodeVarint, zigzagDecode_encodeVal]
  have e1 : (pf : Int) + ((r.fmtId : Int) - (pf : Int)) = (r.fmtId : Int) := by ring
  have e2 : (pt : Int) + ((r.ts : Int) - (pt : Int)) = (r.ts : Int) := by ring
  rw [e1, e2]
  have f1 : ((r.fmtId : Int) % (2 ^ 32 : Int)).toNat = r.fmtId := by omega
  have f2 : ((r.ts : Int) % (2 ^ 64 : Int)).toNat = r.ts := by omega
  rw [f1, f2]

/-! ## Facts about single loop iterations -/

theorem headerIndices_append (a b : List Event) :
    headerIndices (a ++ b) = headerIndices a ++ headerIndices b := by
  simp [headerIndices, List.filterMap_append]

theorem decodeStep_encodeMsg (fnArray : List Nat) (cyclesPerSec msgsToPrint : Nat)
    (st : DecSt) (r : LogRecord) (tail : List Nat)
    (hWF : WFRec fnArray r)
    (hstream : st.stream = encodeMsg st.lastFmtId st.lastTimestamp r ++ tail)
    (heof : st.eofb = false)
    (hlimit : ¬(0 < msgsToPrint ∧ msgsToPrint ≤ st.linesPrinted)) :
    decodeStep fnArray cyclesPerSec msgsToPrint st = .next
      { stream := tail
        eofb := false
        linesPrinted := st.linesPrinted + 1
        lastFmtId := r.fmtId
        lastTimestamp := r.ts
        out := st.out ++
          [.header st.linesPrinted
            ((((r.ts : Int) - (st.lastTimestamp : Int)) % (2 ^ 64 : Int)).toNat)
            cyclesPerSec,
           .body r.args] } := by
  obtain ⟨h1, h2, h3⟩ := hWF
  obtain ⟨stream, eofb, lines, lf, lt, out⟩ := st
  simp only at hstream heof hlimit
  subst hstream heof
  have hds : decompressMetadata (encodeMsg lf lt r ++ tail) lf lt =
      some (r.fmtId, r.ts, r.args ++ tail) := decompressMetadata_encodeMsg lf lt r tail h1 h2
  have hpeek : peekEntryType (encodeMsg lf lt r ++ tail) = .logMsg := by
    simp [encodeMsg, peekEntryType]
  unfold decodeStep
  rw [if_neg (by simp), if_neg hlimit]
  simp only [encodeMsg, List.cons_append, List.append_assoc] at hds hpeek ⊢
  simp only [hpeek, hds, h3]
  rw [if_neg (by simp only [List.length_append]; omega)]
  simp [List.take_left, List.drop_left]

theorem decodeStep_completed_eq (fnArray : List Nat) (cyclesPerSec msgsToPrint : Nat)
    (st st1 : DecSt)
    (h : decodeStep fnArray cyclesPerSec msgsToPrint st = .halt .completed st1) :
    st1 = st := by
  unfold decodeStep at h
  split at h
  · cases h; rfl
  · split at h
    · cases h; rfl
    · split at h
      · split at h
        · simp at h
        · split at h
          · simp at h
          · split at h
            · simp at h
            · simp at h
      · split at h
        · simp at h
        · simp at h
      · simp at h
      · simp at h

theorem decodeStep_header_inv (fnArray : List Nat) (cyclesPerSec msgsToPrint : Nat)
    (st st1 : DecSt)
    (h : decodeStep fnArray cyclesPerSec msgsToPrint st = .next st1)
    (hinv : headerIndices st.out = List.range st.linesPrinted) :
    headerIndices st1.out = List.range st1.linesPrinted := by
  unfold decodeStep at h
  split at h
  · cases h
  · split at h
    · cases h
    · split at h
      · split at h
        · cases h
        · split at h
          · cases h
          · split at h
            · cases h
            · cases h
              simpa [headerIndices_append, headerIndices, List.range_succ] using hinv
      · split at h
        · cases h
        · cases h
          simpa [headerIndices_append, headerIndices] using hinv
      · cases h
        simpa using hinv
      · cases h

/-! ## Facts about whole decode runs -/

theorem headerCount_append_line (out : List Event) (i d c : Nat) (args : List Nat) :
    headerCount (out ++ [.header i d c, .body args]) = headerCount out + 1 := by
  simp [headerCount, headerIndices_append, headerIndices]

theorem decodeLoop_reach_limit (fnArray : List Nat) (cyclesPerSec : Nat)
    (k : Nat) (rs : List LogRecord) (msgsToPrint fuel : Nat) (st : DecSt)
    (hWF : WFRecs fnArray rs)
    (hs : st.stream = encodeMsgs st.lastFmtId st.lastTimestamp rs)
    (he : st.eofb = false)
    (hm : msgsToPrint = st.linesPrinted + k)
    (hpos : 0 < msgsToPrint)
    (hk : k ≤ rs.length)
    (hf : k + 1 ≤ fuel) :
    ∃ st2, decodeLoop fnArray cyclesPerSec msgsToPrint fuel st = some (.completed, st2) ∧
      st2.linesPrinted = msgsToPrint ∧
      headerCount st2.out = headerCount st.out + k ∧
      st2.stream = encodeMsgs st2.lastFmtId st2.lastTimestamp (rs.drop k) := by
  induction k generalizing rs fuel st with
  | zero =>
    obtain ⟨f, rfl⟩ : ∃ f, fuel = f + 1 := ⟨fuel - 1, by omega⟩
    have hstep : decodeStep fnArray cyclesPerSec msgsToPrint st = .halt .completed st := by
      unfold decodeStep
      rw [if_neg (by simp [he]), if_pos ⟨hpos, by omega⟩]
    simp only [decodeLoop, hstep]
    exact ⟨st, rfl, by omega, by simp, by simpa using hs⟩
  | succ k ih =>
    cases rs with
    | nil => simp at hk
    | cons r rs2 =>
      obtain ⟨f, rfl⟩ : ∃ f, fuel = f + 1 := ⟨fuel - 1, by omega⟩
      have hWFr : WFRec fnArray r := hWF r (by simp)
      have hWF2 : WFRecs fnArray rs2 := fun x hx => hWF x (by simp [hx])
      have hs2 : st.stream = encodeMsg st.lastFmtId st.lastTimestamp r ++
          encodeMsgs r.fmtId r.ts rs2 := by simpa [encodeMsgs] using hs
      have hlim : ¬(0 < msgsToPrint ∧ msgsToPrint ≤ st.linesPrinted) := by omega
      have hstep := decodeStep_encodeMsg fnArray cyclesPerSec msgsToPrint st r
        (encodeMsgs r.fmtId r.ts rs2) hWFr hs2 he hlim
      simp only [decodeLoop, hstep]
      simp only [List.length_cons] at hk
      have hm2 : msgsToPrint = (st.linesPrinted + 1) + k := by omega
      obtain ⟨st2, hloop, hlines, hhc, hstream⟩ := ih rs2 f
        { stream := encodeMsgs r.fmtId r.ts rs2
          eofb := false
          linesPrinted := st.linesPrinted + 1
          lastFmtId := r.fmtId
          lastTimestamp := r.ts
          out := st.out ++
            [.header st.linesPrinted
              ((((r.ts : Int) - (st.lastTimestamp : Int)) % (2 ^ 64 : Int)).toNat)
              cyclesPerSec,
             .body r.args] }
        hWF2 rfl rfl hm2 (by omega) (by omega)
      refine ⟨st2, hloop, hlines, ?_, hstream⟩
      have hhc2 : headerCount st2.out = headerCount (st.out ++
          [.header st.linesPrinted
            ((((r.ts : Int) - (st.lastTimestamp : Int)) % (2 ^ 64 : Int)).toNat)
            cyclesPerSec,
           .body r.args]) + k := hhc
      rw [headerCount_append_line] at hhc2
      omega

theorem decodeLoop_consumes_all (fnArray : List Nat) (cyclesPerSec : Nat)
    (rs : List LogRecord) (msgsToPrint fuel : Nat) (st : DecSt)
    (hWF : WFRecs fnArray rs)
    (hs : st.stream = encodeMsgs st.lastFmtId st.lastTimestamp rs)
    (he : st.eofb = false)
    (hlim : msgsToPrint = 0 ∨ st.linesPrinted + rs.length < msgsToPrint)
    (hf : rs.length + 2 ≤ fuel) :
    ∃ st2, decodeLoop fnArray cyclesPerSec msgsToPrint fuel st = some (.completed, st2) ∧
      st2.linesPrinted = st.linesPrinted + rs.length ∧
      headerCount st2.out = headerCount st.out + rs.length ∧
      st2.stream = [] := by
  induction rs generalizing fuel st with
  | nil =>
    obtain ⟨f, rfl⟩ : ∃ f, fuel = f + 2 := ⟨fuel - 2, by omega⟩
    have hs0 : st.stream = [] := by simpa [encodeMsgs] using hs
    have hlim2 : ¬(0 < msgsToPrint ∧ msgsToPrint ≤ st.linesPrinted) := by
      rcases hlim with h | h
      · omega
      · simp only [List.length_nil] at h
        omega
    have hstep1 : decodeStep fnArray cyclesPerSec msgsToPrint st =
        .next { st with stream := [], eofb := true } := by
      unfold decodeStep
      rw [if_neg (by simp [he]), if_neg hlim2]
      simp [hs0, peekEntryType, he]
    have hstep2 : decodeStep fnArray cyclesPerSec msgsToPrint
        { st with stream := [], eofb := true } = .halt .completed
        { st with stream := [], eofb := true } := by
      unfold decodeStep
      rw [if_pos rfl]
    simp only [decodeLoop, hstep1, hstep2]
    exact ⟨_, rfl, by simp, by simp, rfl⟩
  | cons r rs2 ih =>
    obtain ⟨f, rfl⟩ : ∃ f, fuel = f + 1 := ⟨fuel - 1, by omega⟩
    have hWFr : WFRec fnArray r := hWF r (by simp)
    have hWF2 : WFRecs fnArray rs2 := fun x hx => hWF x (by simp [hx])
    have hs2 : st.stream = encodeMsg st.lastFmtId st.lastTimestamp r ++
        encodeMsgs r.fmtId r.ts rs2 := by simpa [encodeMsgs] using hs
    simp only [List.length_cons] at hlim hf
    have hlimStep : ¬(0 < msgsToPrint ∧ msgsToPrint ≤ st.linesPrinted) := by omega
    have hstep := decodeStep_encodeMsg fnArray cyclesPerSec msgsToPrint st r
      (encodeMsgs r.fmtId r.ts rs2) hWFr hs2 he hlimStep
    simp only [decodeLoop, hstep]
    have hlim3 : msgsToPrint = 0 ∨ (st.linesPrinted + 1) + rs2.length < msgsToPrint := by
      omega
    obtain ⟨st2, hloop, hlines, hhc, hstream⟩ := ih f
      { stream := encodeMsgs r.fmtId r.ts rs2
        eofb := false
        linesPrinted := st.linesPrinted + 1
        lastFmtId := r.fmtId
        lastTimestamp := r.ts
        out := st.out ++
          [.header st.linesPrinted
            ((((r.ts : Int) - (st.lastTimestamp : Int)) % (2 ^ 64 : Int)).toNat)
            cyclesPerSec,
           .body r.args] }
      hWF2 rfl rfl hlim3 (by omega)
    have hlines2 : st2.linesPrinted = (st.linesPrinted + 1) + rs2.length := hlines
    have hhc2 : headerCount st2.out = headerCount (st.out ++
        [.header st.linesPrinted
          ((((r.ts : Int) - (st.lastTimestamp : Int)) % (2 ^ 64 : Int)).toNat)
          cyclesPerSec,
         .body r.args]) + rs2.length := hhc
    rw [headerCount_append_line] at hhc2
    refine ⟨st2, hloop, by simp only [List.length_cons]; omega,
      by simp only [List.length_cons]; omega, hstream⟩

theorem decodeLoop_header_inv (fnArray : List Nat) (cyclesPerSec msgsToPrint : Nat)
    (fuel : Nat) (st st2 : DecSt)
    (h : decodeLoop fnArray cyclesPerSec msgsToPrint fuel st = some (.completed, st2))
    (hinv : headerIndices st.out = List.range st.linesPrinted) :
    headerIndices st2.out = List.range st2.linesPrinted := by
  induction fuel generalizing st with
  | zero => simp [decodeLoop] at h
  | succ f ih =>
    rw [decodeLoop] at h
    cases hstep : decodeStep fnArray cyclesPerSec msgsToPrint st with
    | halt r st1 =>
      rw [hstep] at h
      have h2 : r = .completed ∧ st1 = st2 := by simpa using h
      obtain ⟨rfl, rfl⟩ := h2
      have heq := decodeStep_completed_eq fnArray cyclesPerSec msgsToPrint st st1 hstep
      rw [heq]
      exact hinv
    | next st1 =>
      rw [hstep] at h
      exact ih st1 h (decodeStep_header_inv fnArray cyclesPerSec msgsToPrint st st1 hstep hinv)

/-! ## Claim theorems -/

/-- Claim C1: for every valid stream of at least `m` log-message records
and a configured positive print limit `m`, the decode loop of
`LogDecompressor.cc` (lines 82-113) completes having printed exactly
`m` lines, and the remaining stream is exactly the untouched encoding
of the records after the `m`-th -- so record `m + 1`'s payload is not
consumed. -/
theorem print_limit_stops_before_next_record (fnArray : List Nat) (cyclesPerSec : Nat)
    (rs : List LogRecord) (m fuel : Nat)
    (hWF : WFRecs fnArray rs) (hm : 0 < m) (hlen : m ≤ rs.length)
    (hfuel : m + 1 ≤ fuel) :
    ∃ st2, decodeLoop fnArray cyclesPerSec m fuel (initSt (encodeMsgs 0 0 rs)) =
        some (.completed, st2) ∧
      st2.linesPrinted = m ∧
      headerCount st2.out = m ∧
      st2.stream = encodeMsgs st2.lastFmtId st2.lastTimestamp (rs.drop m) := by
  have hm0 : m = 0 + m := by omega
  obtain ⟨st2, hloop, hlines, hhc, hstream⟩ :=
    decodeLoop_reach_limit fnArray cyclesPerSec m rs m fuel
      (initSt (encodeMsgs 0 0 rs)) hWF rfl rfl hm0 hm hlen hfuel
  have hhc2 : headerCount st2.out = 0 + m := hhc
  exact ⟨st2, hloop, hlines, by omega, hstream⟩

/-- Witness for C1: a four-record stream decoded with limit 3 prints
exactly 3 lines and leaves the fourth record's bytes unconsumed. -/
theorem print_limit_stops_before_next_record_witness :
    ∃ st2, decodeLoop [0] 1000 3 4
        (initSt (encodeMsgs 0 0 [⟨0, 1, []⟩, ⟨0, 2, []⟩, ⟨0, 3, []⟩, ⟨0, 9, []⟩])) =
        some (.completed, st2) ∧
      st2.linesPrinted = 3 ∧
      headerCount st2.out = 3 ∧
      st2.stream = encodeMsgs st2.lastFmtId st2.lastTimestamp
        ([⟨0, 1, []⟩, ⟨0, 2, []⟩, ⟨0, 3, []⟩, ⟨0, 9, []⟩].drop 3) :=
  print_limit_stops_before_next_record [0] 1000
    [⟨0, 1, []⟩, ⟨0, 2, []⟩, ⟨0, 3, []⟩, ⟨0, 9, []⟩] 3 4
    (by decide) (by decide) (by decide) (by decide)

/-- Claim C2 (refuted as written; the code loops): on a stream whose
next byte is non-zero garbage that still peeks as an `Invalid` tag
(byte `0x01`), the padding-skip branch of lines 104-107 consumes
nothing and the loop re-peeks the same byte forever -- for every
amount of fuel the decode loop fails to terminate, and no
`CorruptStreamError` is raised.  This confirms the latent
non-termination bug the spec flags. -/
theorem invalid_nonzero_byte_loops_forever (fnArray : List Nat)
    (cyclesPerSec msgsToPrint fuel : Nat) :
    decodeLoop fnArray cyclesPerSec msgsToPrint fuel ⟨[1], false, 0, 0, 0, []⟩ = none := by
  induction fuel with
  | zero => rfl
  | succ f ih =>
    have hl : ¬(0 < msgsToPrint ∧ msgsToPrint ≤ (0 : Nat)) := by omega
    have hstep : decodeStep fnArray cyclesPerSec msgsToPrint ⟨[1], false, 0, 0, 0, []⟩ =
        .next ⟨[1], false, 0, 0, 0, []⟩ := by
      unfold decodeStep
      rw [if_neg (by simp), if_neg hl]
      simp [peekEntryType]
    simp only [decodeLoop, hstep]
    exact ih

/-- Claim C3 (code bug): a log-message record whose decoded format id
is 5 against a one-entry dispatch table drives line 95's unchecked
`decompressAndPrintFnArray[dm.fmtId](in)` with an out-of-range index --
undefined behavior, not the `UnknownFormatIdError` the spec requires;
the second conjunct exhibits that the index is indeed out of range. -/
theorem out_of_range_format_id_undefined_lookup :
    mainModel [0] 1000 ["p", "f"] true (encodeMsg 0 0 ⟨5, 0, []⟩) 3 =
      .undefBehavior [.header 0 0 1000] ∧
    (([0] : List Nat))[(5 : Nat)]? = none := by decide

/-- Claim C4 (code bug): two streams `[Checkpoint][LogMessage][LogMessage]`
differing only in the checkpoint's `cyclesPerSecond` (5 vs 7) produce
identical elapsed-time header lines, both rendered with the machine
calibration (1000) of `PerfUtils::Cycles::toSeconds` -- the
checkpoint's calibration value is printed (third and fourth conjuncts)
but never applied to the following messages, exactly as the line-91
TODO comment admits. -/
theorem checkpoint_calibration_not_applied :
    (headerEvents (eventsOf (mainModel [0] 1000 ["p", "f"] true
        (encodeCheckpoint 5 ++ encodeMsgs 0 0 [⟨0, 10, []⟩, ⟨0, 30, []⟩]) 6)) =
      headerEvents (eventsOf (mainModel [0] 1000 ["p", "f"] true
        (encodeCheckpoint 7 ++ encodeMsgs 0 0 [⟨0, 10, []⟩, ⟨0, 30, []⟩]) 6))) ∧
    checkpointValues (eventsOf (mainModel [0] 1000 ["p", "f"] true
        (encodeCheckpoint 5 ++ encodeMsgs 0 0 [⟨0, 10, []⟩, ⟨0, 30, []⟩]) 6)) = [5] ∧
    checkpointValues (eventsOf (mainModel [0] 1000 ["p", "f"] true
        (encodeCheckpoint 7 ++ encodeMsgs 0 0 [⟨0, 10, []⟩, ⟨0, 30, []⟩]) 6)) = [7] ∧
    headerEvents (eventsOf (mainModel [0] 1000 ["p", "f"] true
        (encodeCheckpoint 5 ++ encodeMsgs 0 0 [⟨0, 10, []⟩, ⟨0, 30, []⟩]) 6)) =
      [.header 0 10 1000, .header 1 20 1000] := by decide

/-- Claim C5: the running delta state is zero before the first record
(lines 80-81); a successfully decoded log-message record commits the
newly decoded absolute format id and timestamp and increments the
printed-line count (lines 97-99); a checkpoint iteration changes
neither the running state nor the count (lines 100-103). -/
theorem running_state_zero_then_committed (fnArray : List Nat)
    (cyclesPerSec msgsToPrint : Nat) (s : List Nat) (st st1 : DecSt) :
    ((initSt s).lastFmtId = 0 ∧ (initSt s).lastTimestamp = 0 ∧
      (initSt s).linesPrinted = 0) ∧
    (∀ fmtId ts rest, peekEntryType st.stream = .logMsg →
      decompressMetadata st.stream st.lastFmtId st.lastTimestamp = some (fmtId, ts, rest) →
      decodeStep fnArray cyclesPerSec msgsToPrint st = .next st1 →
      st1.lastFmtId = fmtId ∧ st1.lastTimestamp = ts ∧
        st1.linesPrinted = st.linesPrinted + 1) ∧
    (peekEntryType st.stream = .checkpoint →
      decodeStep fnArray cyclesPerSec msgsToPrint st = .next st1 →
      st1.lastFmtId = st.lastFmtId ∧ st1.lastTimestamp = st.lastTimestamp ∧
        st1.linesPrinted = st.linesPrinted) := by
  refine ⟨⟨rfl, rfl, rfl⟩, ?_, ?_⟩
  · intro fmtId ts rest hpeek hmeta hstep
    unfold decodeStep at hstep
    split at hstep
    · cases hstep
    · split at hstep
      · cases hstep
      · simp only [hpeek, hmeta] at hstep
        split at hstep
        · cases hstep
        · split at hstep
          · cases hstep
          · cases hstep
            exact ⟨rfl, rfl, rfl⟩
  · intro hpeek hstep
    unfold decodeStep at hstep
    split at hstep
    · cases hstep
    · split at hstep
      · cases hstep
      · simp only [hpeek] at hstep
        split at hstep
        · cases hstep
        · cases hstep
          exact ⟨rfl, rfl, rfl⟩

/-- Witness for C5: a concrete log-message step commits timestamp 4,
and a concrete checkpoint step leaves the printed count at 0. -/
theorem running_state_zero_then_committed_witness :
    ((⟨[], false, 1, 0, 4, [Event.header 0 4 1000, Event.body []]⟩ : DecSt).lastTimestamp = 4) ∧
    ((⟨[], false, 0, 0, 0, [Event.checkpointLine 5]⟩ : DecSt).linesPrinted = 0) := by
  refine ⟨?_, ?_⟩
  · exact ((running_state_zero_then_committed [0] 1000 0 []
      ⟨encodeMsg 0 0 ⟨0, 4, []⟩, false, 0, 0, 0, []⟩
      ⟨[], false, 1, 0, 4, [Event.header 0 4 1000, Event.body []]⟩).2.1
      0 4 [] (by decide) (by decide) (by decide)).2.1
  · exact ((running_state_zero_then_committed [0] 1000 0 []
      ⟨encodeCheckpoint 5, false, 0, 0, 0, []⟩
      ⟨[], false, 0, 0, 0, [Event.checkpointLine 5]⟩).2.2 (by decide) (by decide)).2.2

/-- Claim C6 (refuted as written): on the stream `[200]` the driver
peeks an unrecognized tag, prints the tag value, and calls `exit(-1)`
on line 111 -- so the summary with the number of lines printed (lines
115-116) is never emitted: the output of the halt contains no count
report. -/
theorem corrupt_tag_reports_no_count :
    mainModel [0] 1000 ["p", "f"] true [200] 3 = .exited (-1) [.corruptLine 3] ∧
    summaryReports (eventsOf (mainModel [0] 1000 ["p", "f"] true [200] 3)) = [] := by
  decide

/-- Claim C6 as amended: an unrecognized entry-type tag halts decoding
immediately with `exit(-1)`, reporting the tag value; the count of
lines printed so far is not reported on this path (the emitted output
is exactly the prior output plus the corrupt-tag line, no summary). -/
theorem corrupt_tag_halts_immediately (fnArray : List Nat)
    (cyclesPerSec msgsToPrint fuel : Nat) (st : DecSt) (tag : Nat)
    (hpeek : peekEntryType st.stream = .other tag)
    (heof : st.eofb = false)
    (hlim : ¬(0 < msgsToPrint ∧ msgsToPrint ≤ st.linesPrinted))
    (hfuel : 0 < fuel) :
    finishRun (decodeLoop fnArray cyclesPerSec msgsToPrint fuel st) =
      .exited (-1) (st.out ++ [.corruptLine tag]) := by
  obtain ⟨f, rfl⟩ : ∃ f, fuel = f + 1 := ⟨fuel - 1, by omega⟩
  have hstep : decodeStep fnArray cyclesPerSec msgsToPrint st =
      .halt (.corrupt tag)
        { st with
          eofb := st.eofb || st.stream.isEmpty
          out := st.out ++ [.corruptLine tag] } := by
    unfold decodeStep
    rw [if_neg (by simp [heof]), if_neg hlim]
    simp only [hpeek]
  simp [decodeLoop, hstep, finishRun]

/-- Witness for C6's amended theorem at the concrete stream `[200]`. -/
theorem corrupt_tag_halts_immediately_witness :
    finishRun (decodeLoop [] 0 0 1 (initSt [200])) =
      .exited (-1) ([] ++ [Event.corruptLine 3]) :=
  corrupt_tag_halts_immediately [] 0 0 1 (initSt [200]) 3 (by decide) rfl
    (by decide) (by decide)

/-- Claim C7 (refuted as written): a negative count makes the program
call `exit(-1)` (line 67), not exit with status 1 as claimed. -/
theorem negative_count_exits_minus_one :
    mainModel [0] 1000 ["p", "f", "-1"] true [] 3 = .exited (-1) [] ∧
    ((-1 : Int) ≠ 1) := by decide

/-- Claim C7 as amended: a missing file argument exits with status 1
(line 40); an unparsable count, a negative count, and a file-open
failure each exit with status -1 (lines 57, 62, 67, 74); none of these
paths produce any decoded output. -/
theorem usage_error_exits (fnArray : List Nat) (cyclesPerSec : Nat)
    (prog file cnt : String) (fileOpens : Bool) (stream : List Nat) (fuel : Nat) :
    (mainModel fnArray cyclesPerSec [prog] fileOpens stream fuel = .exited 1 []) ∧
    (∀ e, stoiModel cnt = .error e →
      mainModel fnArray cyclesPerSec [prog, file, cnt] fileOpens stream fuel =
        .exited (-1) []) ∧
    (∀ v : Int, stoiModel cnt = .ok v → v < 0 →
      mainModel fnArray cyclesPerSec [prog, file, cnt] fileOpens stream fuel =
        .exited (-1) []) ∧
    (mainModel fnArray cyclesPerSec [prog, file] false stream fuel = .exited (-1) []) := by
  refine ⟨?_, ?_, ?_, ?_⟩
  · simp [mainModel]
  · intro e he
    simp [mainModel, he]
  · intro v hv hneg
    simp [mainModel, hv, hneg]
  · simp [mainModel]

/-- Witness for C7's amended theorem on concrete arguments. -/
theorem usage_error_exits_witness :
    (mainModel [0] 1 ["p"] true [] 1 = .exited 1 []) ∧
    (mainModel [0] 1 ["p", "f", "x"] true [] 1 = .exited (-1) []) ∧
    (mainModel [0] 1 ["p", "f", "-3"] true [] 1 = .exited (-1) []) ∧
    (mainModel [0] 1 ["p", "f"] false [] 1 = .exited (-1) []) := by
  have h1 := usage_error_exits [0] 1 ("p") ("f") ("x") true [] 1
  have h2 := usage_error_exits [0] 1 ("p") ("f") ("-3") true [] 1
  exact ⟨h1.1, h1.2.1 .invalidArgument rfl,
    h2.2.2.1 (-3) rfl (by decide), h1.2.2.2⟩

/-- Claim C8: passing the count argument "0" is identical to omitting
the count (line 83's guard `msgsToPrint > 0` disables the limit), and
with limit zero every log message of a well-formed stream is decoded
and printed. -/
theorem zero_count_disables_limit (fnArray : List Nat) (cyclesPerSec : Nat) :
    (∀ (fileOpens : Bool) (stream : List Nat) (fuel : Nat),
      mainModel fnArray cyclesPerSec ["p", "f", "0"] fileOpens stream fuel =
        mainModel fnArray cyclesPerSec ["p", "f"] fileOpens stream fuel) ∧
    (∀ (rs : List LogRecord) (fuel : Nat), WFRecs fnArray rs → rs.length + 2 ≤ fuel →
      ∃ st2, decodeLoop fnArray cyclesPerSec 0 fuel (initSt (encodeMsgs 0 0 rs)) =
          some (.completed, st2) ∧
        st2.linesPrinted = rs.length ∧
        headerCount st2.out = rs.length ∧
        st2.stream = []) := by
  constructor
  · intro fileOpens stream fuel
    rfl
  · intro rs fuel hWF hf
    obtain ⟨st2, hloop, hlines, hhc, hstream⟩ :=
      decodeLoop_consumes_all fnArray cyclesPerSec rs 0 fuel
        (initSt (encodeMsgs 0 0 rs)) hWF rfl rfl (Or.inl rfl) hf
    have hlines2 : st2.linesPrinted = 0 + rs.length := hlines
    have hhc2 : headerCount st2.out = 0 + rs.length := hhc
    exact ⟨st2, hloop, by omega, by omega, hstream⟩

/-- Witness for C8 on a one-record stream. -/
theorem zero_count_disables_limit_witness :
    (mainModel [0] 5 ["p", "f", "0"] true [] 3 = mainModel [0] 5 ["p", "f"] true [] 3) ∧
    (∃ st2, decodeLoop [0] 5 0 4 (initSt (encodeMsgs 0 0 [⟨0, 1, []⟩])) =
        some (.completed, st2) ∧
      st2.linesPrinted = 1 ∧ headerCount st2.out = 1 ∧ st2.stream = []) := by
  have h := zero_count_disables_limit [0] 5
  exact ⟨h.1 true [] 3, h.2 [⟨0, 1, []⟩] 4 (by decide) (by decide)⟩

/-- Claim C9: in any completed decode run the header of the k-th
printed log message (k from 1) carries index k-1: the indices emitted
by line 92 are exactly `0, 1, ..., linesPrinted - 1`, because
`linesPrinted` is printed before the `++linesPrinted` of line 99. -/
theorem message_indices_zero_based (fnArray : List Nat)
    (cyclesPerSec msgsToPrint fuel : Nat) (s : List Nat) (st2 : DecSt)
    (h : decodeLoop fnArray cyclesPerSec msgsToPrint fuel (initSt s) =
      some (.completed, st2)) :
    headerIndices st2.out = List.range st2.linesPrinted :=
  decodeLoop_header_inv fnArray cyclesPerSec msgsToPrint fuel (initSt s) st2 h rfl

/-- Witness for C9: a one-message run emits exactly the index 0. -/
theorem message_indices_zero_based_witness :
    headerIndices [Event.header 0 4 9, Event.body []] = List.range 1 :=
  message_indices_zero_based [0] 9 0 3 [64, 0, 1, 8]
    ⟨[], true, 1, 0, 4, [Event.header 0 4 9, Event.body []]⟩ (by decide)

/-- Claim C10 (refuted as written): the digits-only argument
"2147483648" has a numeric prefix yet is still rejected (with
`exit(-1)`) because `std::stoi` throws `std::out_of_range` -- so it is
not only arguments without a leading numeric prefix that cause the
usage-error exit. -/
theorem numeric_arg_can_still_be_rejected :
    mainModel [0] 1000 ["p", "f", "2147483648"] true [] 3 = .exited (-1) [] ∧
    ("2147483648").data.takeWhile Char.isDigit ≠ [] := by decide

/-- Claim C10 as amended: a count with a numeric prefix and trailing
non-numeric text is accepted and parsed as its leading integer ("5x"
behaves as "5", via `std::stoi`'s longest-prefix parse), and an
argument with no digit after optional whitespace and sign is rejected
as unparsable with `exit(-1)`; numeric-prefix arguments can still be
rejected when out of `int` range or negative. -/
theorem trailing_text_count_accepted (fnArray : List Nat) (cyclesPerSec : Nat)
    (fileOpens : Bool) (stream : List Nat) (fuel : Nat) (cnt : String) :
    (mainModel fnArray cyclesPerSec ["p", "f", "5x"] fileOpens stream fuel =
      mainModel fnArray cyclesPerSec ["p", "f", "5"] fileOpens stream fuel) ∧
    (stoiModel ("5x") = .ok 5) ∧
    ((stripSign (cnt.data.dropWhile Char.isWhitespace)).takeWhile Char.isDigit = [] →
      mainModel fnArray cyclesPerSec ["p", "f", cnt] fileOpens stream fuel =
        .exited (-1) []) := by
  refine ⟨rfl, rfl, ?_⟩
  intro hds
  have he : stoiModel cnt = .error .invalidArgument := by
    unfold stoiModel
    simp [hds]
  simp [mainModel, he]

/-- Witness for C10's amended theorem. -/
theorem trailing_text_count_accepted_witness :
    (mainModel [0] 1 ["p", "f", "5x"] true [] 2 = mainModel [0] 1 ["p", "f", "5"] true [] 2) ∧
    (mainModel [0] 1 ["p", "f", "zz"] true [] 2 = .exited (-1) []) := by
  have h := trailing_text_count_accepted [0] 1 true [] 2 ("zz")
  exact ⟨h.1, h.2.2 (by decide)⟩

end NanoLog
